import Mathlib

/-!
Verification of the ChatExtract conversation-export tool (`chat_extract.py`).

The Python source is shallowly embedded below.  All text processing is
modelled on `List Char` (Python `str` is a sequence of Unicode code points,
exactly `List Char`), wrapped into `String` at the top level.  Unix
timestamps are modelled as integers; Python dictionaries with `.get`
defaults become structures with `Option` fields; the regex substitutions of
`re.sub` are embedded as executable left-to-right non-overlapping scanners
specialised to the (fixed, concrete) patterns appearing in the source.
Filesystem and process effects (`print`, `sys.exit`, file writes) are
modelled as a pure outcome record listing the lines printed, the files
written and the exit code, with the environment-dependent pieces
(local-time formatting in `datetime.fromtimestamp(..).strftime`) passed in
as function parameters.
-/

namespace ChatExtract

/-- Backtick code point (0x60), used by the inline/fenced code patterns. -/
def bq : Char := Char.ofNat 96

/-- Double quote code point (0x22), escaped by `html.escape`. -/
def q34 : Char := Char.ofNat 34

/-- Single quote code point (0x27), escaped by `html.escape`. -/
def q39 : Char := Char.ofNat 39

/-- U+E200, the private-use "cite"/"entity" open marker in OpenAI markup. -/
def pE200 : Char := Char.ofNat 0xE200

/-- U+E201, the private-use close/terminator marker. -/
def pE201 : Char := Char.ofNat 0xE201

/-- U+E202, the private-use separator marker. -/
def pE202 : Char := Char.ofNat 0xE202

/-- Membership of a code point in the Unicode Private Use Area
U+E000 - U+F8FF, the character class of `re.sub(r'[-]', ...)`. -/
def isPUA (c : Char) : Bool :=
  decide (0xE000 ≤ c.toNat) && decide (c.toNat ≤ 0xF8FF)

/-!
## A generic engine for the `re.sub` calls of the source

`re.sub(pattern, repl, text)` scans `text` left to right; at each position
it attempts a match of `pattern`; on success it emits `repl` (with group
references substituted) and resumes immediately after the matched span (all
patterns in the source match at least one character); on failure it emits
the current character and advances one position.

`reSubAux m l n` is that scan: the matcher `m` receives the current suffix
and returns `some (replacement, k)` when the pattern matches `k + 1`
characters there, and `none` otherwise.  The counter `n` skips the
remainder of an already-consumed match, keeping the recursion structural on
the list (so that everything evaluates by `decide`).
-/

def reSubAux (m : List Char → Option (List Char × Nat)) :
    List Char → Nat → List Char
  | [], _ => []
  | _ :: cs, Nat.succ n => reSubAux m cs n
  | c :: cs, 0 =>
    match m (c :: cs) with
    | some (r, k) => r ++ reSubAux m cs k
    | none => c :: reSubAux m cs 0

/-- Left-to-right non-overlapping substitution driven by matcher `m`. -/
def reSub (m : List Char → Option (List Char × Nat)) (l : List Char) :
    List Char :=
  reSubAux m l 0

/-- The literal characters opening a citation span:
`cite` in `re.sub(r'cite[^]+', '', text)`. -/
def citeOpen : List Char := [pE200, 'c', 'i', 't', 'e', pE202]

/-- Matcher for the citation pattern `cite[^]+`:
after the six opening characters, `[^]+` greedily takes the maximal
run of non-U+E201 characters (at least one), which must be followed by
U+E201.  Returns the match length minus one. -/
def matchCite (l : List Char) : Option Nat :=
  if citeOpen.isPrefixOf l then
    let rest := l.drop 6
    let run := rest.takeWhile (fun c => c ≠ pE201)
    if 1 ≤ run.length ∧ (rest.drop run.length).head? = some pE201 then
      some (6 + run.length)
    else none
  else none

/-- The literal characters opening an entity span:
`entity\[` in
`re.sub(r'entity\[[^\]]+\]', '', text)`. -/
def entityOpen : List Char := [pE200, 'e', 'n', 't', 'i', 't', 'y', pE202, '[']

/-- Matcher for the entity pattern `entity\[[^\]]+\]`:
after the nine opening characters, `[^\]]+` greedily takes the maximal run
of non-`]` characters (at least one), which must be followed by `]` and
then U+E201.  Returns the match length minus one. -/
def matchEntity (l : List Char) : Option Nat :=
  if entityOpen.isPrefixOf l then
    let rest := l.drop 9
    let run := rest.takeWhile (fun c => c ≠ ']')
    if 1 ≤ run.length ∧ (rest.drop run.length).head? = some ']' ∧
        (rest.drop (run.length + 1)).head? = some pE201 then
      some (10 + run.length)
    else none
  else none

/-- Citation matcher packaged for `reSub` (replacement is empty). -/
def matchCiteDel (l : List Char) : Option (List Char × Nat) :=
  (matchCite l).map (fun k => (([] : List Char), k))

/-- Entity matcher packaged for `reSub` (replacement is empty). -/
def matchEntityDel (l : List Char) : Option (List Char × Nat) :=
  (matchEntity l).map (fun k => (([] : List Char), k))

/-- The cleaner `clean_openai_markup` on code points: remove citation spans, then
entity spans, then every remaining Private Use Area character
(`re.sub(r'[-]', '', text)` deletes single characters, i.e.
filters them out). -/
def cleanChars (l : List Char) : List Char :=
  (reSub matchEntityDel (reSub matchCiteDel l)).filter (fun c => !isPUA c)

/-- Source function `clean_openai_markup(text)` from `chat_extract.py`. -/
def clean_openai_markup (s : String) : String :=
  ⟨cleanChars s.data⟩

/-!
### Generic no-match lemma for `reSub`
-/

theorem reSubAux_eq_self (m : List Char → Option (List Char × Nat))
    (Q : Char → Prop)
    (hm : ∀ l : List Char, l ≠ [] → (∀ c ∈ l, Q c) → m l = none) :
    ∀ s : List Char, (∀ c ∈ s, Q c) → reSubAux m s 0 = s := by
  intro s
  induction s with
  | nil => intro _; rfl
  | cons c cs ih =>
    intro hq
    have hnone : m (c :: cs) = none :=
      hm (c :: cs) (List.cons_ne_nil c cs) hq
    have : reSubAux m (c :: cs) 0 = c :: reSubAux m cs 0 := by
      simp [reSubAux, hnone]
    rw [this, ih (fun d hd => hq d (List.mem_cons_of_mem c hd))]

theorem reSub_eq_self (m : List Char → Option (List Char × Nat))
    (Q : Char → Prop)
    (hm : ∀ l : List Char, l ≠ [] → (∀ c ∈ l, Q c) → m l = none)
    (s : List Char) (hs : ∀ c ∈ s, Q c) : reSub m s = s :=
  reSubAux_eq_self m Q hm s hs

theorem matchCite_none_of_head {c : Char} (cs : List Char)
    (h : c ≠ pE200) : matchCite (c :: cs) = none := by
  have : citeOpen.isPrefixOf (c :: cs) = false := by
    simp [citeOpen, List.isPrefixOf, h, Ne.symm h]
  simp [matchCite, this]

theorem matchEntity_none_of_head {c : Char} (cs : List Char)
    (h : c ≠ pE200) : matchEntity (c :: cs) = none := by
  have : entityOpen.isPrefixOf (c :: cs) = false := by
    simp [entityOpen, List.isPrefixOf, h, Ne.symm h]
  simp [matchEntity, this]

/-- On a PUA-free character list the cleaner is the identity: neither span
matcher can fire (both require U+E200 at the match head) and the PUA filter
keeps everything. -/
theorem cleanChars_of_no_pua (l : List Char)
    (hQ : ∀ c ∈ l, isPUA c = false) : cleanChars l = l := by
  have hE200 : isPUA pE200 = true := by decide
  have hcite : reSub matchCiteDel l = l := by
    apply reSub_eq_self _ (fun c => isPUA c = false)
    · intro t hne hl
      match t, hne with
      | c :: cs, _ =>
        have : c ≠ pE200 := by
          intro hc
          have := hl c (List.mem_cons_self c cs)
          rw [hc, hE200] at this
          simp at this
        simp [matchCiteDel, matchCite_none_of_head cs this]
    · exact hQ
  have hentity : reSub matchEntityDel l = l := by
    apply reSub_eq_self _ (fun c => isPUA c = false)
    · intro t hne hl
      match t, hne with
      | c :: cs, _ =>
        have : c ≠ pE200 := by
          intro hc
          have := hl c (List.mem_cons_self c cs)
          rw [hc, hE200] at this
          simp at this
        simp [matchEntityDel, matchEntity_none_of_head cs this]
    · exact hQ
  have hfilter : l.filter (fun c => !isPUA c) = l := by
    rw [List.filter_eq_self]
    intro c hc
    simp [hQ c hc]
  rw [cleanChars, hcite, hentity, hfilter]

/-- C1 -- For every input string containing no Unicode Private Use Area code
points (U+E000 - U+F8FF), `clean_openai_markup` returns the input unchanged:
it is the identity function on PUA-free text. -/
theorem markup_cleaner_identity_on_pua_free (s : String)
    (h : ∀ c ∈ s.data, isPUA c = false) :
    clean_openai_markup s = s := by
  show (⟨cleanChars s.data⟩ : String) = s
  rw [cleanChars_of_no_pua s.data h]

/-- Witness for C1 at the concrete PUA-free input `"hello **world**"`. -/
theorem markup_cleaner_identity_on_pua_free_witness :
    clean_openai_markup "hello **world**" = "hello **world**" :=
  markup_cleaner_identity_on_pua_free "hello **world**" (by decide)

/-!
## `html.escape`

CPython's `html.escape(s, quote=True)` performs the five replacements
`&` to `&amp;`, `<` to `&lt;`, `>` to `&gt;`, `"` to `&quot;`,
`'` to `&#x27;`, in that order.  Since no replacement string contains a
character replaced by a later pass, the composition equals a single
character-wise expansion, proved as `pyHtmlEscape_eq` below.
-/

/-- Python `str.replace` with a single-character needle. -/
def pyReplace (c : Char) (r : List Char) (l : List Char) : List Char :=
  l.flatMap (fun x => if x = c then r else [x])

/-- The five sequential replacements of CPython `html.escape`. -/
def pyHtmlEscape (l : List Char) : List Char :=
  pyReplace q39 ['&', '#', 'x', '2', '7', ';']
    (pyReplace q34 ['&', 'q', 'u', 'o', 't', ';']
      (pyReplace '>' ['&', 'g', 't', ';']
        (pyReplace '<' ['&', 'l', 't', ';']
          (pyReplace '&' ['&', 'a', 'm', 'p', ';'] l))))

/-- Character-wise form of `html.escape`. -/
def escChar (c : Char) : List Char :=
  if c = '&' then ['&', 'a', 'm', 'p', ';']
  else if c = '<' then ['&', 'l', 't', ';']
  else if c = '>' then ['&', 'g', 't', ';']
  else if c = q34 then ['&', 'q', 'u', 'o', 't', ';']
  else if c = q39 then ['&', '#', 'x', '2', '7', ';']
  else [c]

/-- Python `html.escape` on code points, used throughout the renderer. -/
def htmlEscapeChars (l : List Char) : List Char :=
  l.flatMap escChar

theorem pyHtmlEscape_append (x y : List Char) :
    pyHtmlEscape (x ++ y) = pyHtmlEscape x ++ pyHtmlEscape y := by
  simp [pyHtmlEscape, pyReplace]

theorem pyHtmlEscape_single (c : Char) : pyHtmlEscape [c] = escChar c := by
  by_cases h1 : c = '&'
  · subst h1; simp +decide [pyHtmlEscape, pyReplace, escChar, q34, q39]
  · by_cases h2 : c = '<'
    · subst h2; simp +decide [pyHtmlEscape, pyReplace, escChar, q34, q39]
    · by_cases h3 : c = '>'
      · subst h3; simp +decide [pyHtmlEscape, pyReplace, escChar, q34, q39]
      · by_cases h4 : c = q34
        · subst h4; simp +decide [pyHtmlEscape, pyReplace, escChar, q34, q39]
        · by_cases h5 : c = q39
          · subst h5
            simp +decide [pyHtmlEscape, pyReplace, escChar, q34, q39]
          · simp [pyHtmlEscape, pyReplace, escChar, h1, h2, h3, h4, h5]

theorem pyHtmlEscape_eq (l : List Char) :
    pyHtmlEscape l = htmlEscapeChars l := by
  induction l with
  | nil => rfl
  | cons c cs ih =>
    have : (c :: cs) = [c] ++ cs := rfl
    rw [this, pyHtmlEscape_append, pyHtmlEscape_single, ih]
    simp [htmlEscapeChars]

/-- Python `html.escape` at `String` level (quote=True, the default used by the source). -/
def html_escape (s : String) : String :=
  ⟨htmlEscapeChars s.data⟩

/-!
## The Markdown renderer `simple_markdown_to_html`

Each `re.sub` pass of the source becomes one pass below, in the source's
order.  `^...$` header patterns with `re.MULTILINE` act line by line, so
they are modelled by splitting on newline, mapping, and re-joining.
-/

/-- Split on `'\n'` (used to model the `re.MULTILINE` header patterns). -/
def splitNL : List Char → List (List Char)
  | [] => [[]]
  | c :: cs =>
    if c = '\n' then [] :: splitNL cs
    else
      match splitNL cs with
      | [] => [[c]]
      | p :: ps => (c :: p) :: ps

/-- One header pass, e.g. `re.sub(r'^### (.+)$', r'<h3>\1</h3>', text,
flags=re.MULTILINE)`: a line starting with `hashes ++ " "` whose remainder
is non-empty (`.+` needs at least one character, and `.` cannot match a
newline) is wrapped in the given tags, consuming the rest of the line. -/
def headerSub (hashes openTag closeTag : List Char) (l : List Char) :
    List Char :=
  List.intercalate ['\n'] ((splitNL l).map (fun line =>
    if (hashes ++ [' ']).isPrefixOf line ∧
        line.drop (hashes.length + 1) ≠ [] then
      openTag ++ line.drop (hashes.length + 1) ++ closeTag
    else line))

/-- Backtracking scan for `(X+?)` followed by the literal delimiter `E`,
where the repeated element `X` is a character class given by `allowed`:
returns the shortest non-empty run of `allowed` characters after which `E`
matches (exactly the lazy-quantifier semantics), or `none`. -/
def scanInner (E : List Char) (allowed : Char → Bool) :
    List Char → Option (List Char)
  | [] => none
  | c :: cs =>
    if allowed c then
      if E.isPrefixOf cs then some [c]
      else
        match scanInner E allowed cs with
        | some inner => some (c :: inner)
        | none => none
    else none

/-- Matcher for a delimited-span pattern `D (X+?) E` replaced by
`pre \1 post`, covering the bold, italic, fenced-code and inline-code
substitutions of the source (for inline code the source's class `[^X]+` is
greedy, but a greedy class that excludes the delimiter matches exactly what
the lazy scan finds). -/
def matchWrap (D E : List Char) (allowed : Char → Bool)
    (pre post : List Char) (l : List Char) : Option (List Char × Nat) :=
  if D.isPrefixOf l then
    match scanInner E allowed (l.drop D.length) with
    | some inner =>
      some (pre ++ inner ++ post, D.length + inner.length + E.length - 1)
    | none => none
  else none

/-- Matcher for the link pattern `\[([^\]]+)\]\(([^\)]+)\)` replaced by
`<a href="\2" target="_blank">\1</a>`. -/
def matchLink (l : List Char) : Option (List Char × Nat) :=
  match l with
  | [] => none
  | c :: rest =>
    if c = '[' then
      match scanInner [']'] (fun c => c ≠ ']') rest with
      | some label =>
        match rest.drop (label.length + 1) with
        | '(' :: rest2 =>
          match scanInner [')'] (fun c => c ≠ ')') rest2 with
          | some url =>
            some ("<a href=".data ++ [q34] ++ url ++ [q34] ++
                    " target=".data ++ [q34] ++ "_blank".data ++ [q34] ++
                    ['>'] ++ label ++ "</a>".data,
                  3 + label.length + url.length)
          | none => none
        | _ => none
      | none => none
    else none

/-- Split on the two-character separator `"\n\n"` (Python
`text.split('\n\n')`: leftmost, non-overlapping). -/
def splitPara : List Char → List (List Char)
  | [] => [[]]
  | [c] => [[c]]
  | c :: d :: cs =>
    if c = '\n' ∧ d = '\n' then [] :: splitPara cs
    else
      match splitPara (d :: cs) with
      | [] => [[c]]
      | p :: ps => (c :: p) :: ps

/-- Paragraph formatting: a block not already starting with `<` has its
single newlines converted to `<br>` and is wrapped in `<p>...</p>`. -/
def formatPara (p : List Char) : List Char :=
  if p.head? = some '<' then p
  else "<p>".data ++ pyReplace '\n' "<br>".data p ++ "</p>".data

/-- The renderer `simple_markdown_to_html` on code points: clean OpenAI markup, escape
HTML, then the substitution passes in source order (headers h3/h2/h1, bold,
italic `*`, italic `_`, fenced code, inline code, links), and finally the
paragraph pass. -/
def mdChars (l : List Char) : List Char :=
  let t1 := htmlEscapeChars (cleanChars l)
  let t2 := headerSub ['#', '#', '#'] "<h3>".data "</h3>".data t1
  let t3 := headerSub ['#', '#'] "<h2>".data "</h2>".data t2
  let t4 := headerSub ['#'] "<h1>".data "</h1>".data t3
  let t5 := reSub (matchWrap ['*', '*'] ['*', '*'] (fun c => c ≠ '\n')
    "<strong>".data "</strong>".data) t4
  let t6 := reSub (matchWrap ['*'] ['*'] (fun c => c ≠ '\n')
    "<em>".data "</em>".data) t5
  let t7 := reSub (matchWrap ['_'] ['_'] (fun c => c ≠ '\n')
    "<em>".data "</em>".data) t6
  let t8 := reSub (matchWrap [bq, bq, bq] [bq, bq, bq] (fun _ => true)
    "<pre><code>".data "</code></pre>".data) t7
  let t9 := reSub (matchWrap [bq] [bq] (fun c => c ≠ bq)
    "<code>".data "</code>".data) t8
  let t10 := reSub matchLink t9
  ((splitPara t10).map formatPara).flatten

/-- Source function `simple_markdown_to_html(text)` from `chat_extract.py`. -/
def simple_markdown_to_html (s : String) : String :=
  ⟨mdChars s.data⟩

/-!
## Data model

JSON values appearing in a message's `content.parts` entries.  In real
exports these are strings or multimodal stubs; the model covers strings,
integers, booleans and null, enough to express Python's truthiness test
`if p` and stringification `str(p)` exactly on those constructors.
-/

inductive PartVal where
  | str (s : String)
  | num (n : Int)
  | bool (b : Bool)
  | null
deriving DecidableEq

/-- Python truthiness `if p` on a part. -/
def pyTruthy : PartVal → Bool
  | .str s => s ≠ ""
  | .num n => n ≠ 0
  | .bool b => b
  | .null => false

/-- Python `str(p)` on a part. -/
def pyStr : PartVal → String
  | .str s => s
  | .num n => toString n
  | .bool b => if b then "True" else "False"
  | .null => "None"

/-- The value `message['content']`: `content_type` from `content.get('content_type')`,
`parts` from `content.get('parts', [])` (absent modelled as `[]`). -/
structure Content where
  content_type : Option String
  parts : List PartVal
deriving DecidableEq

/-- A mapping node's message.  `author_role` is
`message.get('author', {}).get('role', 'unknown')` before the default;
`create_time` is `message.get('create_time', 0)` before the default.
Unix timestamps are modelled as integers. -/
structure Message where
  author_role : Option String
  content : Option Content
  create_time : Option Int
deriving DecidableEq

/-- A node of the conversation `mapping`; `none` covers both an absent and
a falsy `message`/`content` value (`if message and message.get('content')`). -/
structure Node where
  message : Option Message
deriving DecidableEq

/-- The per-message record built at lines 327-331 of the source. -/
structure Rendered where
  role : String
  content : String
  create_time : Int
deriving DecidableEq

/-- A conversation record; `mapping` is the node map in its (insertion)
iteration order, node ids being irrelevant to the extractor. -/
structure Conversation where
  title : Option String
  create_time : Option Int
  mapping : List Node
deriving DecidableEq

/-- Python `''.join([str(p) for p in parts if p])`: falsy parts are skipped, the
rest are stringified and concatenated. -/
def joinedParts (parts : List PartVal) : String :=
  String.join ((parts.filter pyTruthy).map pyStr)

/-- Python `str.strip()` whitespace (space, tab, newline, CR, VT, FF). -/
def pySpaceChar (c : Char) : Bool :=
  c = ' ' || c = '\t' || c = '\n' || c = '\r' ||
    c = Char.ofNat 11 || c = Char.ofNat 12

/-- Python `text.strip()` on code points. -/
def pyStripChars (l : List Char) : List Char :=
  ((l.dropWhile pySpaceChar).reverse.dropWhile pySpaceChar).reverse

/-- The per-node body of the extraction loop (source lines 316-331): a node
with a present message and content of `content_type == 'text'` whose parts
list is non-empty and whose joined text is non-blank yields a `Rendered`
record; every other node yields nothing. -/
def nodeMessage (n : Node) : Option Rendered :=
  match n.message with
  | none => none
  | some m =>
    match m.content with
    | none => none
    | some c =>
      if c.content_type = some "text" then
        if c.parts ≠ [] then
          let text := joinedParts c.parts
          if pyStripChars text.data ≠ [] then
            some { role := m.author_role.getD "unknown"
                   content := text
                   create_time := m.create_time.getD 0 }
          else none
        else none
      else none

/-- Stable insertion: place `m` after every element with a strictly smaller
key and before the first element with a key that is not smaller. -/
def insertCT (m : Rendered) : List Rendered → List Rendered
  | [] => [m]
  | x :: xs =>
    if x.create_time < m.create_time then x :: insertCT m xs
    else m :: x :: xs

/-- The stable ascending sort by `create_time`
(`messages.sort(key=lambda m: m['create_time'])`; Python's sort is stable,
and a stable sort's output is unique, so this insertion sort is
extensionally the same function). -/
def sortCT : List Rendered → List Rendered
  | [] => []
  | m :: ms => insertCT m (sortCT ms)

/-- The message extractor: collect `Rendered` records over the mapping in
iteration order, then stable-sort by `create_time`. -/
def extractMessages (mapping : List Node) : List Rendered :=
  sortCT (mapping.filterMap nodeMessage)

/-!
## Document assembler pieces (`generate_html`)

The static CSS/document template of `generate_html` is a constant string
independent of the data; the per-message markup, table-of-contents entries
and conversation sections below are the data-dependent parts.
-/

/-- Python `.upper()` (on the role strings appearing here, ASCII). -/
def pyUpper (s : String) : String :=
  ⟨s.data.map Char.toUpper⟩

/-- Source line 340, `role_class = role if role in ['user', 'assistant', 'system'] else
'system'` (source line 340). -/
def role_class (role : String) : String :=
  if role ∈ (["user", "assistant", "system"] : List String) then role
  else "system"

/-- Source line 341, `role_display = html.escape(role).upper()`. -/
def role_display (role : String) : String :=
  pyUpper (html_escape role)

/-- The per-message `<div class="message ...">` block (source lines
343-348). -/
def messageDiv (msg : Rendered) : String :=
  "\n        <div class=" ++ ⟨[q34]⟩ ++ "message " ++ role_class msg.role ++
    ⟨[q34]⟩ ++ ">\n            <div class=" ++ ⟨[q34]⟩ ++ "message-role" ++
    ⟨[q34]⟩ ++ ">" ++ role_display msg.role ++
    "</div>\n            <div class=" ++ ⟨[q34]⟩ ++ "message-content" ++
    ⟨[q34]⟩ ++ ">" ++ simple_markdown_to_html msg.content ++
    "</div>\n        </div>\n"

/-- Map with one-based indices (Python `enumerate(xs, 1)`). -/
def enum1map {α β : Type} (f : Nat → α → β) (l : List α) : List β :=
  (List.range l.length).zip l |>.map (fun p => f (p.1 + 1) p.2)

/-- A table-of-contents entry (source lines 276-289); `fmtTime` is the
environment-dependent `format_timestamp` (local-time
`YYYY-MM-DD HH:MM:SS`). -/
def tocEntry (fmtTime : Int → String) (idx : Nat) (conv : Conversation) :
    String :=
  let title := html_escape (conv.title.getD "Untitled")
  let ct := conv.create_time.getD 0
  let timeStr := if ct ≠ 0 then fmtTime ct else "Unknown"
  "\n            <li class=" ++ ⟨[q34]⟩ ++ "toc-item" ++ ⟨[q34]⟩ ++
    ">\n                <a href=" ++ ⟨[q34]⟩ ++ "#conv-" ++ toString idx ++
    ⟨[q34]⟩ ++ " class=" ++ ⟨[q34]⟩ ++ "toc-link" ++ ⟨[q34]⟩ ++
    ">\n                    <span>" ++ toString idx ++ ". " ++ title ++
    "</span>\n                    <span class=" ++ ⟨[q34]⟩ ++ "toc-time" ++
    ⟨[q34]⟩ ++ ">" ++ timeStr ++
    "</span>\n                </a>\n            </li>\n"

/-- One conversation section (source lines 297-350): header with escaped
title and formatted date, then the message blocks of the extracted,
time-sorted messages. -/
def convSection (fmtTime : Int → String) (idx : Nat) (conv : Conversation) :
    String :=
  let title := html_escape (conv.title.getD "Untitled")
  let ct := conv.create_time.getD 0
  let dateStr := if ct ≠ 0 then fmtTime ct else "Unknown date"
  "\n    <div class=" ++ ⟨[q34]⟩ ++ "conversation" ++ ⟨[q34]⟩ ++ " id=" ++
    ⟨[q34]⟩ ++ "conv-" ++ toString idx ++ ⟨[q34]⟩ ++
    ">\n        <div class=" ++ ⟨[q34]⟩ ++ "conversation-header" ++
    ⟨[q34]⟩ ++ ">\n            <h2 class=" ++ ⟨[q34]⟩ ++
    "conversation-title" ++ ⟨[q34]⟩ ++ ">" ++ toString idx ++ ". " ++
    title ++ "</h2>\n            <div class=" ++ ⟨[q34]⟩ ++
    "conversation-date" ++ ⟨[q34]⟩ ++ ">" ++ dateStr ++
    "</div>\n        </div>\n" ++
    String.join ((extractMessages conv.mapping).map messageDiv) ++
    "    </div>\n"

/-- The data-dependent body of `generate_html`: the summary count, the
table of contents and the conversation sections, in input order (the
surrounding static HTML/CSS template is a data-independent constant and is
not modelled). -/
def generateHtmlBody (fmtTime : Int → String) (convs : List Conversation) :
    String :=
  "Total conversations: " ++ toString convs.length ++
    String.join (enum1map (tocEntry fmtTime) convs) ++
    String.join (enum1map (convSection fmtTime) convs)

/-!
## Date/keyword filtering and `extract_by_date`

`dateOf` stands for `get_date_only` (local-time `YYYY-MM-DD` of a
timestamp) and `fmtTime` for `format_timestamp`; both depend on the host
timezone and are passed as parameters.  Process effects are modelled as a
`RunOutcome`: the stdout lines, the stderr lines, the files written (a
JSON file's content is the conversation list it serialises) and the exit
code (`none` means the function returns normally).  The JSON write at
source lines 419-421 is assumed to succeed (its own failure path exits 1),
matching the claims, which are conditioned on the JSON having been
written. -/

/-- Python `str.lower()`. -/
def pyLower (s : String) : String :=
  ⟨s.data.map Char.toLower⟩

/-- Substring test, Python `needle in haystack`. -/
def isSubstr (needle haystack : List Char) : Bool :=
  match haystack with
  | [] => needle.isEmpty
  | _ :: tl => needle.isPrefixOf haystack || isSubstr needle tl

/-- Truthiness of the optional `keyword` argument (`if keyword:`;
an empty string is falsy, like an absent keyword). -/
def kwIsTruthy (kw : Option String) : Bool :=
  kw.getD "" ≠ ""

/-- The filter loop of `extract_by_date` (source lines 393-403): a
conversation matches when its `create_time` is truthy, its local date
equals the target, and, when a truthy keyword is given, the lowercased
keyword occurs in the lowercased title (`conv.get('title', '')`). -/
def convMatches (dateOf : Int → String) (target : String)
    (kw : Option String) (conv : Conversation) : Bool :=
  let ts := conv.create_time.getD 0
  if ts ≠ 0 ∧ dateOf ts = target then
    if kwIsTruthy kw then
      isSubstr (pyLower (kw.getD "")).data (pyLower (conv.title.getD "")).data
    else true
  else false

/-- Content of an output file. -/
inductive FileData where
  | jsonFile (convs : List Conversation)
  | htmlFile (body : String)
deriving DecidableEq

/-- The observable effects of one `extract_by_date` call. -/
structure RunOutcome where
  printed : List String
  errPrinted : List String
  files : List (String × FileData)
  exitCode : Option Nat
deriving DecidableEq

/-- The summary line `  {idx}. [{time_str}] {title}` (source lines
440-444). -/
def summaryLine (fmtTime : Int → String) (idx : Nat) (conv : Conversation) :
    String :=
  let ct := conv.create_time.getD 0
  let timeStr := if ct ≠ 0 then fmtTime ct else "Unknown"
  "  " ++ toString idx ++ ". [" ++ timeStr ++ "] " ++
    conv.title.getD "Untitled"

/-- Source function `extract_by_date` (lines 389-444).  `htmlErr = some e` models
`generate_html` raising an exception with message `e`; `none` models
success. -/
def extract_by_date (dateOf fmtTime : Int → String) (folderName : String)
    (convs : List Conversation) (target : String) (kw : Option String)
    (htmlErr : Option String) : RunOutcome :=
  let matching := convs.filter (convMatches dateOf target kw)
  if matching = [] then
    { printed := [if kwIsTruthy kw then
        "No conversations found for date: " ++ target ++
          " with keyword: " ++ ⟨[q39]⟩ ++ kw.getD "" ++ ⟨[q39]⟩
      else "No conversations found for date: " ++ target]
      errPrinted := []
      files := []
      exitCode := some 1 }
  else
    let outputJson := "extracted/" ++ folderName ++ "/conversations.json"
    let outputHtml := "extracted/" ++ folderName ++ "/chat.html"
    let filterMsg := if kwIsTruthy kw then
        " with keyword " ++ ⟨[q39]⟩ ++ kw.getD "" ++ ⟨[q39]⟩
      else ""
    let headP := ["\nExtracted " ++ toString matching.length ++
        " conversation(s) for " ++ target ++ filterMsg,
      "Output: " ++ outputJson]
    let sumP := ["\nSummary:"] ++ enum1map (summaryLine fmtTime) matching
    match htmlErr with
    | none =>
      { printed := headP ++ ["Generated: " ++ outputHtml] ++ sumP
        errPrinted := []
        files := [(outputJson, .jsonFile matching),
                  (outputHtml, .htmlFile (generateHtmlBody fmtTime matching))]
        exitCode := none }
    | some e =>
      { printed := headP ++ sumP
        errPrinted := ["Warning: Could not generate HTML: " ++ e]
        files := [(outputJson, .jsonFile matching)]
        exitCode := none }

/-!
## `load_conversations`
-/

/-- JSON values, for the parsed content of `conversations.json`. -/
inductive JValue where
  | str (s : String)
  | num (n : Int)
  | bool (b : Bool)
  | null
  | arr (elems : List JValue)
  | obj (fields : List (String × JValue))

/-- The outcome of opening and parsing `conversations.json`. -/
inductive ParseResult where
  | parsed (data : JValue)
  | fileNotFound
  | decodeError (msg : String)

/-- The outcome of `load_conversations`: either the conversation list, or
a fatal exit (code 1) with a diagnostic on stderr. -/
inductive LoadOutcome where
  | ok (conversations : List JValue)
  | fatalExit (stderrMsg : String)

/-- Source function `load_conversations` (lines 26-36):
`conversations = data if isinstance(data, list) else []`; absence of the
file and malformed JSON are fatal. -/
def load_conversations (fileName : String) : ParseResult → LoadOutcome
  | .parsed data =>
    .ok (match data with
      | .arr l => l
      | _ => [])
  | .fileNotFound => .fatalExit ("Error: File not found: " ++ fileName)
  | .decodeError e => .fatalExit ("Error: Invalid JSON in file: " ++ e)

/-!
## Claims about the renderer's edge behaviour and the extractor
-/

/-- C3 counterexample -- `simple_markdown_to_html` applied to the empty
string does not return the empty string: `"".split('\n\n')` is `[""]`, the
empty block does not start with `<`, so it is wrapped as `<p></p>`. -/
theorem markdown_empty_input_counterexample :
    simple_markdown_to_html "" ≠ "" := by decide

/-- C3 amended -- On the empty string the Markdown Renderer returns the
single empty paragraph `"<p></p>"`, not the empty fragment. -/
theorem markdown_empty_input_gives_empty_paragraph :
    simple_markdown_to_html "" = "<p></p>" := by decide

/-- The concrete node used to refute C2: a `content_type == "text"` message
whose `parts` contain the falsy non-string part `0`. -/
def c2Node : Node :=
  { message := some
      { author_role := some "assistant"
        content := some
          { content_type := some "text"
            parts := [.str "a", .num 0, .str "b"] }
        create_time := some 7 } }

/-- Modelled from the spec's words for C2 only: "the concatenation of all
entries of `content.parts` in order, with every non-string part converted
to its textual representation (no part is dropped)". -/
def specPartsConcat (parts : List PartVal) : String :=
  String.join (parts.map pyStr)

/-- C2 counterexample -- the emitted body drops falsy parts: for parts
`["a", 0, "b"]` the extractor emits `"ab"` (Python `str(0)` is truth-tested
away by `if p`), while the claimed concatenation of all stringified parts
is `"a0b"`. -/
theorem text_parts_concat_counterexample :
    (nodeMessage c2Node).map Rendered.content = some "ab" ∧
    specPartsConcat [.str "a", .num 0, .str "b"] = "a0b" ∧
    ("ab" : String) ≠ "a0b" := by
  refine ⟨by decide, by decide, by decide⟩

/-- C2 amended -- for a node whose message has `content_type "text"`, any
emitted message body equals the concatenation of the stringified truthy
parts (falsy parts -- empty strings, `0`, `False`, `None` -- are skipped by
`if p`), with role and timestamp defaulted from the message. -/
theorem text_parts_concat_amended (n : Node) (m : Message) (c : Content)
    (r : Rendered) (h1 : n.message = some m) (h2 : m.content = some c)
    (h3 : c.content_type = some "text") (h4 : nodeMessage n = some r) :
    r.content = joinedParts c.parts ∧
    r.role = m.author_role.getD "unknown" ∧
    r.create_time = m.create_time.getD 0 := by
  simp only [nodeMessage, h1, h2, h3, eq_self_iff_true, if_true] at h4
  split_ifs at h4 with hp hs
  cases h4
  exact ⟨rfl, rfl, rfl⟩

/-- Witness for C2 amended at the concrete node `c2Node`. -/
theorem text_parts_concat_amended_witness :
    Rendered.content
        { role := "assistant", content := "ab", create_time := (7 : Int) } =
      joinedParts [.str "a", .num 0, .str "b"] ∧
    Rendered.role
        { role := "assistant", content := "ab", create_time := (7 : Int) } =
      Option.getD (some "assistant") "unknown" ∧
    Rendered.create_time
        { role := "assistant", content := "ab", create_time := (7 : Int) } =
      Option.getD (some 7) 0 :=
  text_parts_concat_amended c2Node
    { author_role := some "assistant"
      content := some
        { content_type := some "text", parts := [.str "a", .num 0, .str "b"] }
      create_time := some 7 }
    { content_type := some "text", parts := [.str "a", .num 0, .str "b"] }
    { role := "assistant", content := "ab", create_time := (7 : Int) }
    rfl rfl rfl (by decide)

/-!
### Sorting lemmas for C4
-/

theorem mem_insertCT (m y : Rendered) (l : List Rendered) :
    y ∈ insertCT m l ↔ y = m ∨ y ∈ l := by
  induction l with
  | nil => simp [insertCT]
  | cons x xs ih =>
    by_cases h : x.create_time < m.create_time
    · rw [insertCT, if_pos h]
      simp [ih]
      tauto
    · rw [insertCT, if_neg h]
      simp

theorem pairwise_insertCT (m : Rendered) (l : List Rendered)
    (h : l.Pairwise (fun a b => a.create_time ≤ b.create_time)) :
    (insertCT m l).Pairwise (fun a b => a.create_time ≤ b.create_time) := by
  induction l with
  | nil => simp [insertCT]
  | cons x xs ih =>
    rcases List.pairwise_cons.mp h with ⟨hx, hxs⟩
    by_cases hc : x.create_time < m.create_time
    · rw [insertCT, if_pos hc]
      refine List.pairwise_cons.mpr ⟨?_, ih hxs⟩
      intro y hy
      rcases (mem_insertCT m y xs).mp hy with rfl | hmem
      · exact le_of_lt hc
      · exact hx y hmem
    · rw [insertCT, if_neg hc]
      refine List.pairwise_cons.mpr ⟨?_, h⟩
      intro y hy
      rcases List.mem_cons.mp hy with rfl | hmem
      · exact le_of_not_lt hc
      · exact le_trans (le_of_not_lt hc) (hx y hmem)

theorem pairwise_sortCT (l : List Rendered) :
    (sortCT l).Pairwise (fun a b => a.create_time ≤ b.create_time) := by
  induction l with
  | nil => exact List.Pairwise.nil
  | cons m ms ih => exact pairwise_insertCT m (sortCT ms) ih

theorem filter_insertCT (k : Int) (m : Rendered) (l : List Rendered) :
    (insertCT m l).filter (fun r => r.create_time == k) =
      (if m.create_time == k then [m] else []) ++
        l.filter (fun r => r.create_time == k) := by
  induction l with
  | nil =>
    by_cases hk : m.create_time = k <;> simp [insertCT, hk]
  | cons x xs ih =>
    by_cases hc : x.create_time < m.create_time
    · rw [insertCT, if_pos hc]
      by_cases hk : m.create_time = k
      · have hxk : x.create_time ≠ k := by omega
        rw [List.filter_cons, List.filter_cons]
        simp only [ih]
        simp [hxk, hk]
      · rw [List.filter_cons, List.filter_cons]
        simp only [ih]
        simp [hk]
    · rw [insertCT, if_neg hc]
      by_cases hk : m.create_time = k
      · rw [List.filter_cons, List.filter_cons]
        simp [hk]
      · rw [List.filter_cons, List.filter_cons]
        simp [hk]

theorem filter_sortCT (k : Int) (l : List Rendered) :
    (sortCT l).filter (fun r => r.create_time == k) =
      l.filter (fun r => r.create_time == k) := by
  induction l with
  | nil => rfl
  | cons m ms ih =>
    rw [sortCT, filter_insertCT, ih]
    by_cases hk : m.create_time = k <;> simp [List.filter_cons, hk]

/-- A text node carrying one non-blank part, for the C4 ordering demo. -/
def demoNode (ct : Option Int) (s : String) : Node :=
  { message := some
      { author_role := some "user"
        content := some { content_type := some "text", parts := [.str s] }
        create_time := ct } }

/-- Mapping iteration order: timestamps 3, 1, 2, then one absent. -/
def demoNodes : List Node :=
  [demoNode (some 3) "t3", demoNode (some 1) "t1",
   demoNode (some 2) "t2", demoNode none "t0"]

/-- C4 -- extracted messages are stable-sorted by `create_time` ascending:
the result is pairwise non-decreasing; for every key the messages with that
key keep their original (mapping-iteration) relative order; and on the
demo mapping with timestamps `[3, 1, 2]` plus one absent (defaulted to 0)
the rendered order is `[0, 1, 2, 3]`. -/
theorem messages_sorted_stably_by_create_time :
    (∀ mapping : List Node,
      (extractMessages mapping).Pairwise
        (fun a b => a.create_time ≤ b.create_time)) ∧
    (∀ (mapping : List Node) (k : Int),
      (extractMessages mapping).filter (fun r => r.create_time == k) =
        (mapping.filterMap nodeMessage).filter
          (fun r => r.create_time == k)) ∧
    (extractMessages demoNodes).map Rendered.create_time = [0, 1, 2, 3] ∧
    (extractMessages demoNodes).map Rendered.content =
      ["t0", "t1", "t2", "t3"] := by
  refine ⟨fun mapping => pairwise_sortCT _,
    fun mapping k => filter_sortCT k _, by decide, by decide⟩

/-- C6 -- in the per-message block, the CSS role class is the message's
role exactly when it is one of `user`, `assistant`, `system`, and `system`
otherwise, while the displayed label is always the message's own role,
HTML-escaped and uppercased. -/
theorem role_class_and_display (role : String) :
    role_class role =
      (if role = "user" ∨ role = "assistant" ∨ role = "system" then role
       else "system") ∧
    role_display role = pyUpper (html_escape role) ∧
    role_class "tool" = "system" ∧ role_display "tool" = "TOOL" := by
  refine ⟨?_, rfl, by decide, by decide⟩
  by_cases h : role = "user" ∨ role = "assistant" ∨ role = "system"
  · rw [if_pos h, role_class, if_pos (by simpa using h)]
  · rw [if_neg h, role_class, if_neg (by simpa using h)]

/-!
### Claims about `extract_by_date` and `load_conversations`
-/

/-- C7 -- when the date (and optional keyword) filter matches zero
conversations, `extract_by_date` exits with status 1 after printing a
message, writes no files, and with no keyword the printed message is
exactly `"No conversations found for date: <date>"`. -/
theorem no_match_exits_nonzero (dateOf fmtTime : Int → String)
    (name : String) (convs : List Conversation) (target : String)
    (kw : Option String) (htmlErr : Option String)
    (h : convs.filter (convMatches dateOf target kw) = []) :
    (extract_by_date dateOf fmtTime name convs target kw htmlErr).exitCode =
        some 1 ∧
    (extract_by_date dateOf fmtTime name convs target kw htmlErr).files =
        [] ∧
    (kw = none →
      (extract_by_date dateOf fmtTime name convs target kw htmlErr).printed =
        ["No conversations found for date: " ++ target]) := by
  rw [extract_by_date]
  simp only [h, eq_self_iff_true, if_true]
  refine ⟨trivial, trivial, ?_⟩
  rintro rfl
  simp [kwIsTruthy]

/-- Witness for C7 on an empty conversation set. -/
theorem no_match_exits_nonzero_witness :
    (extract_by_date (fun _ => "2025-10-21") (fun _ => "")
        "Charlie-1" [] "2025-10-22" none none).exitCode = some 1 ∧
    (extract_by_date (fun _ => "2025-10-21") (fun _ => "")
        "Charlie-1" [] "2025-10-22" none none).files = [] ∧
    (none = (none : Option String) →
      (extract_by_date (fun _ => "2025-10-21") (fun _ => "")
          "Charlie-1" [] "2025-10-22" none none).printed =
        ["No conversations found for date: " ++ "2025-10-22"]) :=
  no_match_exits_nonzero (fun _ => "2025-10-21") (fun _ => "")
    "Charlie-1" [] "2025-10-22" none none rfl

/-- C8 -- when HTML generation fails after the filtered JSON has been
written, the run only warns on stderr: the JSON file (and nothing else) is
in the written outputs, the run does not exit, and the per-conversation
summary is still printed after the extraction messages. -/
theorem html_failure_preserves_json (dateOf fmtTime : Int → String)
    (name : String) (convs : List Conversation) (target : String)
    (kw : Option String) (e : String)
    (h : convs.filter (convMatches dateOf target kw) ≠ []) :
    (extract_by_date dateOf fmtTime name convs target kw (some e)).exitCode =
        none ∧
    (extract_by_date dateOf fmtTime name convs target kw (some e)).files =
        [("extracted/" ++ name ++ "/conversations.json",
          FileData.jsonFile (convs.filter (convMatches dateOf target kw)))] ∧
    (extract_by_date dateOf fmtTime name convs target kw (some e)).errPrinted =
        ["Warning: Could not generate HTML: " ++ e] ∧
    (extract_by_date dateOf fmtTime name convs target kw (some e)).printed =
        ["\nExtracted " ++
            toString (convs.filter (convMatches dateOf target kw)).length ++
            " conversation(s) for " ++ target ++
            (if kwIsTruthy kw then
              " with keyword " ++ ⟨[q39]⟩ ++ kw.getD "" ++ ⟨[q39]⟩
             else ""),
          "Output: " ++ ("extracted/" ++ name ++ "/conversations.json"),
          "\nSummary:"] ++
          enum1map (summaryLine fmtTime)
            (convs.filter (convMatches dateOf target kw)) := by
  rw [extract_by_date]
  simp only []
  rw [if_neg h]
  exact ⟨rfl, rfl, rfl, rfl⟩

/-- The conversation used in the C8/C9 witnesses. -/
def convC : Conversation :=
  { title := some "Python tips", create_time := some 5, mapping := [] }

/-- Witness for C8: one matching conversation, HTML write failing. -/
theorem html_failure_preserves_json_witness :
    ([convC].filter (convMatches (fun _ => "d") "d" none) ≠ []) ∧
    (extract_by_date (fun _ => "d") (fun _ => "t") "f" [convC] "d" none
        (some "disk full")).exitCode = none ∧
    (extract_by_date (fun _ => "d") (fun _ => "t") "f" [convC] "d" none
        (some "disk full")).files =
      [("extracted/" ++ "f" ++ "/conversations.json",
        FileData.jsonFile ([convC].filter (convMatches (fun _ => "d") "d" none)))] :=
  ⟨by decide,
   (html_failure_preserves_json (fun _ => "d") (fun _ => "t") "f" [convC]
      "d" none "disk full" (by decide)).1,
   (html_failure_preserves_json (fun _ => "d") (fun _ => "t") "f" [convC]
      "d" none "disk full" (by decide)).2.1⟩

/-- Conversations used in the C9 counterexample: two different dates. -/
def convA : Conversation :=
  { title := some "A", create_time := some 1, mapping := [] }

def convB : Conversation :=
  { title := some "B", create_time := some 2, mapping := [] }

/-- C9 counterexample -- extraction always passes through the mandatory
date filter, so it does not reproduce the full conversation set: with
conversations on two dates and target date `"1"` (under date function
`toString`), the written JSON is `[convA]`, and no written file holds the
full set `[convA, convB]`. -/
theorem roundtrip_counterexample :
    (extract_by_date (fun n => toString n) (fun _ => "t") "f"
        [convA, convB] "1" none none).files.head? =
      some ("extracted/f/conversations.json", FileData.jsonFile [convA]) ∧
    ¬ (("extracted/f/conversations.json",
        FileData.jsonFile [convA, convB]) ∈
       (extract_by_date (fun n => toString n) (fun _ => "t") "f"
          [convA, convB] "1" none none).files) := by
  refine ⟨by decide, by decide⟩

/-- C9 amended -- when the (mandatory) date filter matches every
conversation of a non-empty set and no keyword is given, the written
`conversations.json` holds exactly the full input list, order preserved
(the file content is the list itself in this model, i.e. the JSON content
differs only in formatting). -/
theorem roundtrip_full_match (dateOf fmtTime : Int → String)
    (name : String) (convs : List Conversation) (target : String)
    (htmlErr : Option String) (hne : convs ≠ [])
    (hall : ∀ conv ∈ convs, convMatches dateOf target none conv = true) :
    ("extracted/" ++ name ++ "/conversations.json",
      FileData.jsonFile convs) ∈
      (extract_by_date dateOf fmtTime name convs target none htmlErr).files := by
  have hfilter : convs.filter (convMatches dateOf target none) = convs :=
    List.filter_eq_self.mpr hall
  rw [extract_by_date]
  simp only [hfilter]
  rw [if_neg hne]
  cases htmlErr with
  | none => exact List.mem_cons_self _ _
  | some e => exact List.mem_cons_self _ _

/-- Witness for C9 amended: a single conversation matching its date. -/
theorem roundtrip_full_match_witness :
    ("extracted/" ++ "f" ++ "/conversations.json",
      FileData.jsonFile [convC]) ∈
      (extract_by_date (fun _ => "d") (fun _ => "t") "f" [convC] "d" none
        none).files :=
  roundtrip_full_match (fun _ => "d") (fun _ => "t") "f" [convC] "d" none
    (by decide) (by decide)

/-- C10 -- if `conversations.json` parses but its top-level value is not an
array, `load_conversations` does not fail: it returns the empty
conversation list. -/
theorem load_non_array_yields_empty (fileName : String) (v : JValue)
    (h : ∀ l, v ≠ JValue.arr l) :
    load_conversations fileName (.parsed v) = .ok [] := by
  cases v with
  | arr l => exact absurd rfl (h l)
  | str s => rfl
  | num n => rfl
  | bool b => rfl
  | null => rfl
  | obj fs => rfl

/-- Witness for C10 at the non-array top-level value `null`. -/
theorem load_non_array_yields_empty_witness :
    load_conversations "data/conversations.json" (.parsed .null) = .ok [] :=
  load_non_array_yields_empty "data/conversations.json" .null
    (fun _ h => JValue.noConfusion h)

/-!
## Single-escaping (C5)

`countSub pat l` counts the positions of `l` at which the (non-empty)
pattern `pat` occurs.  On source text free of markdown metacharacters the
renderer's output is exactly the escaped text wrapped in one paragraph, and
each literal `&` (resp. `<`) of the source yields exactly one `&amp;`
(resp. `&lt;`) occurrence in the output.
-/

def countSub (pat : List Char) : List Char → Nat
  | [] => 0
  | c :: cs => (if pat.isPrefixOf (c :: cs) then 1 else 0) + countSub pat cs

/-- The characters of `&amp;`. -/
def ampPat : List Char := ['&', 'a', 'm', 'p', ';']

/-- The characters of `&lt;`. -/
def ltPat : List Char := ['&', 'l', 't', ';']

/-- Characters whose absence keeps every substitution pass of the renderer
inert: markdown metacharacters, newline, `[`, `<` and the backtick. -/
def escSafe (c : Char) : Bool :=
  !(c = '*' || c = '_' || c = '#' || c = '[' || c = '\n' || c = '<' || c = bq)

/-- Source characters on which the renderer performs no cleaning and no
markdown substitution, leaving `&` and `<` as the only escaped characters:
no markdown metacharacter, newline, PUA character, `>` or quote. -/
def mdSafe (c : Char) : Bool :=
  (!(c = '>' || c = q34 || c = q39 || c = '\n' || c = '*' || c = '_' ||
    c = '#' || c = bq || c = '[')) && !isPUA c

theorem escSafe_props (c : Char) (h : escSafe c = true) :
    c ≠ '*' ∧ c ≠ '_' ∧ c ≠ '#' ∧ c ≠ '[' ∧ c ≠ '\n' ∧ c ≠ '<' ∧ c ≠ bq := by
  simp only [escSafe, Bool.not_eq_true', Bool.or_eq_false_iff,
    decide_eq_false_iff_not] at h
  tauto

theorem mdSafe_props (c : Char) (h : mdSafe c = true) :
    c ≠ '>' ∧ c ≠ q34 ∧ c ≠ q39 ∧ c ≠ '\n' ∧ c ≠ '*' ∧ c ≠ '_' ∧
      c ≠ '#' ∧ c ≠ bq ∧ c ≠ '[' ∧ isPUA c = false := by
  simp only [mdSafe, Bool.and_eq_true, Bool.not_eq_true',
    Bool.or_eq_false_iff, decide_eq_false_iff_not] at h
  tauto

theorem escChar_safe (c : Char) (h : mdSafe c = true) :
    ∀ d ∈ escChar c, escSafe d = true := by
  obtain ⟨h1, h2, h3, h4, h5, h6, h7, h8, h9, hp⟩ := mdSafe_props c h
  by_cases ha : c = '&'
  · subst ha; decide
  · by_cases hb : c = '<'
    · subst hb; decide
    · have hplain : escChar c = [c] := by
        simp [escChar, ha, hb, h1, h2, h3]
      rw [hplain]
      intro d hd
      rw [List.mem_singleton] at hd
      subst hd
      simp [escSafe, h4, h5, h6, h7, h8, h9, hb]

theorem htmlEscapeChars_safe (s : List Char)
    (h : ∀ c ∈ s, mdSafe c = true) :
    ∀ d ∈ htmlEscapeChars s, escSafe d = true := by
  intro d hd
  rw [htmlEscapeChars] at hd
  rcases List.mem_flatMap.mp hd with ⟨c, hc, hdc⟩
  exact escChar_safe c (h c hc) d hdc

/-!
### Each pass is inert on metacharacter-free text
-/

theorem splitNL_of_no_newline (l : List Char) (h : '\n' ∉ l) :
    splitNL l = [l] := by
  induction l with
  | nil => rfl
  | cons c cs ih =>
    have hc : c ≠ '\n' := fun hh => h (hh ▸ List.mem_cons_self c cs)
    have ih' := ih (fun hm => h (List.mem_cons_of_mem c hm))
    simp [splitNL, hc, ih']

theorem headerSub_eq_self (hs openT closeT : List Char) (l : List Char)
    (hn : '\n' ∉ l) (hh : '#' ∉ l) (hhs : ∃ t, hs = '#' :: t) :
    headerSub hs openT closeT l = l := by
  obtain ⟨t, rfl⟩ := hhs
  rw [headerSub, splitNL_of_no_newline l hn]
  simp only [List.map_cons, List.map_nil, List.intercalate]
  have hnopre : ¬ ('#' :: (t ++ [' ']) <+: l) := by
    rintro ⟨r, hr⟩
    exact hh (hr ▸ List.mem_cons_self '#' ((t ++ [' ']) ++ r))
  rw [if_neg]
  · simp
  · rintro ⟨hA, _⟩
    exact hnopre (List.isPrefixOf_iff_prefix.mp hA)

theorem matchWrap_none_of_head (d : Char) (D E : List Char)
    (allowed : Char → Bool) (pre post : List Char) (c : Char)
    (cs : List Char) (h : c ≠ d) :
    matchWrap (d :: D) E allowed pre post (c :: cs) = none := by
  have hp : (((d :: D)).isPrefixOf (c :: cs)) = false := by
    simp [List.isPrefixOf, Ne.symm h]
  simp [matchWrap, hp]

theorem matchLink_none_of_head (c : Char) (cs : List Char) (h : c ≠ '[') :
    matchLink (c :: cs) = none := by
  simp [matchLink, h]

theorem splitPara_of_no_newline (l : List Char) (h : '\n' ∉ l) :
    splitPara l = [l] := by
  induction l with
  | nil => rfl
  | cons c cs ih =>
    cases cs with
    | nil => rfl
    | cons d cs2 =>
      have hc : c ≠ '\n' := fun hh => h (hh ▸ List.mem_cons_self c _)
      have ih' := ih (fun hm => h (List.mem_cons_of_mem c hm))
      simp [splitPara, hc, ih']

theorem pyReplace_of_not_mem (a : Char) (r : List Char) (l : List Char)
    (h : a ∉ l) : pyReplace a r l = l := by
  induction l with
  | nil => rfl
  | cons c cs ih =>
    have hca : c ≠ a := fun hh => h (hh ▸ List.mem_cons_self c cs)
    have ih' := ih (fun hm => h (List.mem_cons_of_mem c hm))
    simp only [pyReplace, List.flatMap_cons, if_neg hca] at *
    rw [ih']
    rfl

theorem formatPara_eq (p : List Char) (h1 : p.head? ≠ some '<')
    (h2 : '\n' ∉ p) :
    formatPara p = "<p>".data ++ p ++ "</p>".data := by
  rw [formatPara, if_neg h1, pyReplace_of_not_mem _ _ _ h2]

/-- On metacharacter-free source text the renderer's output is exactly the
HTML-escaped text wrapped in a single paragraph. -/
theorem mdChars_safe_shape (s : List Char)
    (h : ∀ c ∈ s, mdSafe c = true) :
    mdChars s = '<' :: 'p' :: '>' :: (htmlEscapeChars s ++ ['<', '/', 'p', '>']) := by
  have hpua : ∀ c ∈ s, isPUA c = false :=
    fun c hc => (mdSafe_props c (h c hc)).2.2.2.2.2.2.2.2.2
  have hsafe : ∀ d ∈ htmlEscapeChars s, escSafe d = true :=
    htmlEscapeChars_safe s h
  set E := htmlEscapeChars s with hE
  have hnl : '\n' ∉ E := fun hm => (escSafe_props _ (hsafe _ hm)).2.2.2.2.1 rfl
  have hhash : '#' ∉ E := fun hm => (escSafe_props _ (hsafe _ hm)).2.2.1 rfl
  have hstar : '*' ∉ E := fun hm => (escSafe_props _ (hsafe _ hm)).1 rfl
  have hund : '_' ∉ E := fun hm => (escSafe_props _ (hsafe _ hm)).2.1 rfl
  have hbq : bq ∉ E := fun hm => (escSafe_props _ (hsafe _ hm)).2.2.2.2.2.2 rfl
  have hlb : '[' ∉ E := fun hm => (escSafe_props _ (hsafe _ hm)).2.2.2.1 rfl
  have hlt : '<' ∉ E := fun hm => (escSafe_props _ (hsafe _ hm)).2.2.2.2.2.1 rfl
  have h3p : headerSub ['#', '#', '#'] "<h3>".data "</h3>".data E = E :=
    headerSub_eq_self _ _ _ E hnl hhash ⟨_, rfl⟩
  have h2p : headerSub ['#', '#'] "<h2>".data "</h2>".data E = E :=
    headerSub_eq_self _ _ _ E hnl hhash ⟨_, rfl⟩
  have h1p : headerSub ['#'] "<h1>".data "</h1>".data E = E :=
    headerSub_eq_self _ _ _ E hnl hhash ⟨_, rfl⟩
  have hbold : reSub (matchWrap ['*', '*'] ['*', '*'] (fun c => c ≠ '\n')
      "<strong>".data "</strong>".data) E = E := by
    apply reSub_eq_self _ (fun c => c ∈ E) ?_ E (fun c hc => hc)
    intro l hne hl
    match l, hne with
    | c :: cs, _ =>
      exact matchWrap_none_of_head '*' _ _ _ _ _ c cs
        (fun hc => hstar (hc ▸ hl c (List.mem_cons_self c cs)))
  have hital : reSub (matchWrap ['*'] ['*'] (fun c => c ≠ '\n')
      "<em>".data "</em>".data) E = E := by
    apply reSub_eq_self _ (fun c => c ∈ E) ?_ E (fun c hc => hc)
    intro l hne hl
    match l, hne with
    | c :: cs, _ =>
      exact matchWrap_none_of_head '*' _ _ _ _ _ c cs
        (fun hc => hstar (hc ▸ hl c (List.mem_cons_self c cs)))
  have hiund : reSub (matchWrap ['_'] ['_'] (fun c => c ≠ '\n')
      "<em>".data "</em>".data) E = E := by
    apply reSub_eq_self _ (fun c => c ∈ E) ?_ E (fun c hc => hc)
    intro l hne hl
    match l, hne with
    | c :: cs, _ =>
      exact matchWrap_none_of_head '_' _ _ _ _ _ c cs
        (fun hc => hund (hc ▸ hl c (List.mem_cons_self c cs)))
  have hfence : reSub (matchWrap [bq, bq, bq] [bq, bq, bq] (fun _ => true)
      "<pre><code>".data "</code></pre>".data) E = E := by
    apply reSub_eq_self _ (fun c => c ∈ E) ?_ E (fun c hc => hc)
    intro l hne hl
    match l, hne with
    | c :: cs, _ =>
      exact matchWrap_none_of_head bq _ _ _ _ _ c cs
        (fun hc => hbq (hc ▸ hl c (List.mem_cons_self c cs)))
  have hcode : reSub (matchWrap [bq] [bq] (fun c => c ≠ bq)
      "<code>".data "</code>".data) E = E := by
    apply reSub_eq_self _ (fun c => c ∈ E) ?_ E (fun c hc => hc)
    intro l hne hl
    match l, hne with
    | c :: cs, _ =>
      exact matchWrap_none_of_head bq _ _ _ _ _ c cs
        (fun hc => hbq (hc ▸ hl c (List.mem_cons_self c cs)))
  have hlink : reSub matchLink E = E := by
    apply reSub_eq_self _ (fun c => c ∈ E) ?_ E (fun c hc => hc)
    intro l hne hl
    match l, hne with
    | c :: cs, _ =>
      exact matchLink_none_of_head c cs
        (fun hc => hlb (hc ▸ hl c (List.mem_cons_self c cs)))
  have hsp : splitPara E = [E] := splitPara_of_no_newline E hnl
  have hhead : E.head? ≠ some '<' := by
    cases hEc : E with
    | nil => simp
    | cons d ds =>
      simp only [List.head?_cons, ne_eq, Option.some.injEq]
      intro hd
      exact hlt (hd ▸ (hEc ▸ List.mem_cons_self d ds))
  have hfp : formatPara E = "<p>".data ++ E ++ "</p>".data :=
    formatPara_eq E hhead hnl
  simp only [mdChars]
  rw [cleanChars_of_no_pua s hpua, ← hE]
  rw [h3p, h2p, h1p, hbold, hital, hiund, hfence, hcode, hlink, hsp]
  simp only [List.map_cons, List.map_nil, hfp, List.flatten_cons,
    List.flatten_nil, List.append_nil, List.append_assoc]
  rfl

/-!
### Occurrence counting through the escape
-/

theorem countSub_amp_skip (c : Char) (l : List Char) (h : c ≠ '&') :
    countSub ampPat (c :: l) = countSub ampPat l := by
  have hp : (ampPat.isPrefixOf (c :: l)) = false := by
    simp [ampPat, List.isPrefixOf, Ne.symm h]
  simp [countSub, hp]

theorem countSub_lt_skip (c : Char) (l : List Char) (h : c ≠ '&') :
    countSub ltPat (c :: l) = countSub ltPat l := by
  have hp : (ltPat.isPrefixOf (c :: l)) = false := by
    simp [ltPat, List.isPrefixOf, Ne.symm h]
  simp [countSub, hp]

theorem countSub_amp_amp (l : List Char) :
    countSub ampPat ('&' :: 'a' :: 'm' :: 'p' :: ';' :: l) =
      1 + countSub ampPat l := by
  simp +decide [countSub, ampPat, List.isPrefixOf]

theorem countSub_amp_lt (l : List Char) :
    countSub ampPat ('&' :: 'l' :: 't' :: ';' :: l) =
      countSub ampPat l := by
  simp +decide [countSub, ampPat, List.isPrefixOf]

theorem countSub_lt_lt (l : List Char) :
    countSub ltPat ('&' :: 'l' :: 't' :: ';' :: l) =
      1 + countSub ltPat l := by
  simp +decide [countSub, ltPat, List.isPrefixOf]

theorem countSub_lt_amp (l : List Char) :
    countSub ltPat ('&' :: 'a' :: 'm' :: 'p' :: ';' :: l) =
      countSub ltPat l := by
  simp +decide [countSub, ltPat, List.isPrefixOf]

theorem countAmp_escape (s : List Char) (h : ∀ c ∈ s, mdSafe c = true)
    (tail : List Char) :
    countSub ampPat (htmlEscapeChars s ++ tail) =
      s.count '&' + countSub ampPat tail := by
  induction s with
  | nil => simp [htmlEscapeChars]
  | cons c cs ih =>
    have hc := h c (List.mem_cons_self c cs)
    have hcs : ∀ d ∈ cs, mdSafe d = true :=
      fun d hd => h d (List.mem_cons_of_mem c hd)
    rw [htmlEscapeChars, List.flatMap_cons, List.append_assoc,
      ← htmlEscapeChars]
    by_cases ha : c = '&'
    · subst ha
      rw [show escChar '&' = ['&', 'a', 'm', 'p', ';'] from rfl]
      rw [show (['&', 'a', 'm', 'p', ';'] : List Char) ++
          (htmlEscapeChars cs ++ tail) =
          '&' :: 'a' :: 'm' :: 'p' :: ';' :: (htmlEscapeChars cs ++ tail)
        from rfl]
      rw [countSub_amp_amp, ih hcs]
      simp [List.count_cons]
      omega
    · by_cases hb : c = '<'
      · subst hb
        rw [show escChar '<' = ['&', 'l', 't', ';'] from rfl]
        rw [show (['&', 'l', 't', ';'] : List Char) ++
            (htmlEscapeChars cs ++ tail) =
            '&' :: 'l' :: 't' :: ';' :: (htmlEscapeChars cs ++ tail)
          from rfl]
        rw [countSub_amp_lt, ih hcs]
        simp +decide [List.count_cons]
      · obtain ⟨h1, h2, h3, _, _, _, _, _, _, _⟩ := mdSafe_props c hc
        have hplain : escChar c = [c] := by
          simp [escChar, ha, hb, h1, h2, h3]
        rw [hplain, List.singleton_append, countSub_amp_skip c _ ha,
          ih hcs]
        simp [List.count_cons, ha]

theorem countLt_escape (s : List Char) (h : ∀ c ∈ s, mdSafe c = true)
    (tail : List Char) :
    countSub ltPat (htmlEscapeChars s ++ tail) =
      s.count '<' + countSub ltPat tail := by
  induction s with
  | nil => simp [htmlEscapeChars]
  | cons c cs ih =>
    have hc := h c (List.mem_cons_self c cs)
    have hcs : ∀ d ∈ cs, mdSafe d = true :=
      fun d hd => h d (List.mem_cons_of_mem c hd)
    rw [htmlEscapeChars, List.flatMap_cons, List.append_assoc,
      ← htmlEscapeChars]
    by_cases ha : c = '&'
    · subst ha
      rw [show escChar '&' = ['&', 'a', 'm', 'p', ';'] from rfl]
      rw [show (['&', 'a', 'm', 'p', ';'] : List Char) ++
          (htmlEscapeChars cs ++ tail) =
          '&' :: 'a' :: 'm' :: 'p' :: ';' :: (htmlEscapeChars cs ++ tail)
        from rfl]
      rw [countSub_lt_amp, ih hcs]
      simp +decide [List.count_cons]
    · by_cases hb : c = '<'
      · subst hb
        rw [show escChar '<' = ['&', 'l', 't', ';'] from rfl]
        rw [show (['&', 'l', 't', ';'] : List Char) ++
            (htmlEscapeChars cs ++ tail) =
            '&' :: 'l' :: 't' :: ';' :: (htmlEscapeChars cs ++ tail)
          from rfl]
        rw [countSub_lt_lt, ih hcs]
        simp [List.count_cons]
        omega
      · obtain ⟨h1, h2, h3, _, _, _, _, _, _, _⟩ := mdSafe_props c hc
        have hplain : escChar c = [c] := by
          simp [escChar, ha, hb, h1, h2, h3]
        rw [hplain, List.singleton_append, countSub_lt_skip c _ ha,
          ih hcs]
        simp [List.count_cons, hb]

/-- C5 -- on source text free of markdown metacharacters (and of the other
escaped characters), the renderer's output is the HTML-escaped text wrapped
in one paragraph -- escaping happened exactly once, before the substitution
passes injected the tag syntax -- and every literal `&` (resp. `<`) of the
source maps to exactly one `&amp;` (resp. `&lt;`) occurrence in the output
fragment. -/
theorem escape_exactly_once_before_substitution (s : String)
    (h : ∀ c ∈ s.data, mdSafe c = true) :
    simple_markdown_to_html s =
      ⟨'<' :: 'p' :: '>' :: (htmlEscapeChars s.data ++ ['<', '/', 'p', '>'])⟩ ∧
    countSub ampPat (mdChars s.data) = s.data.count '&' ∧
    countSub ltPat (mdChars s.data) = s.data.count '<' := by
  have hmk : simple_markdown_to_html s = ⟨mdChars s.data⟩ := rfl
  have hshape := mdChars_safe_shape s.data h
  refine ⟨hmk.trans (congrArg (fun l => (⟨l⟩ : String)) hshape), ?_, ?_⟩
  · rw [hshape]
    rw [countSub_amp_skip '<' _ (by decide)]
    rw [countSub_amp_skip 'p' _ (by decide)]
    rw [countSub_amp_skip '>' _ (by decide)]
    rw [countAmp_escape s.data h]
    rw [show countSub ampPat ['<', '/', 'p', '>'] = 0 from by decide]
    omega
  · rw [hshape]
    rw [countSub_lt_skip '<' _ (by decide)]
    rw [countSub_lt_skip 'p' _ (by decide)]
    rw [countSub_lt_skip '>' _ (by decide)]
    rw [countLt_escape s.data h]
    rw [show countSub ltPat ['<', '/', 'p', '>'] = 0 from by decide]
    omega

/-- Witness for C5 at the concrete input `"a & b < c"`. -/
theorem escape_exactly_once_before_substitution_witness :
    (∀ c ∈ ("a & b < c" : String).data, mdSafe c = true) ∧
    countSub ampPat (mdChars ("a & b < c" : String).data) =
      ("a & b < c" : String).data.count '&' ∧
    countSub ltPat (mdChars ("a & b < c" : String).data) =
      ("a & b < c" : String).data.count '<' :=
  ⟨by decide,
   (escape_exactly_once_before_substitution "a & b < c" (by decide)).2.1,
   (escape_exactly_once_before_substitution "a & b < c" (by decide)).2.2⟩

end ChatExtract
